import Mathlib

/-!
Verification of the documentation builder of go-oas-docs (src/build.go).

The Go maps are embedded as association lists (`AList`) whose insert
replaces an existing key's value in place, matching Go's `m[k] = v`.
A Go map variable itself is embedded as `GoMap := Option AList`, with
`none` for the nil map and `some` for an allocated map, so that the
difference between a nil map and an allocated empty map is observable
(the source always allocates with `make`).

Heterogeneous `interface{}` values stored in the output tree are embedded
as the inductive `Value`, with one constructor per Go type the builders
actually store.
-/

set_option autoImplicit false

namespace OasDocs

/-- Contents of a Go map, as an association list; keys are unique by
construction because `mapInsert` replaces in place. -/
abbrev AList (K V : Type) := List (K × V)

/-- Go's `m[k] = v` on an allocated map: replace the existing entry for `k`
in place, otherwise append a fresh entry. -/
def mapInsert {K V : Type} [DecidableEq K] : AList K V → K → V → AList K V
  | [], k, v => [(k, v)]
  | (k', v') :: rest, k, v =>
    if k = k' then (k, v) :: rest else (k', v') :: mapInsert rest k v

/-- Go's one-value map read `m[k]`, as an `Option` (present or absent). -/
def mapLookup {K V : Type} [DecidableEq K] : AList K V → K → Option V
  | [], _ => none
  | (k', v') :: rest, k => if k = k' then some v' else mapLookup rest k

/-- A Go map variable: `none` is the nil map, `some l` an allocated map with
contents `l`. -/
abbrev GoMap (K V : Type) := Option (AList K V)

/-- Go's `make(map[K]V)`: a freshly allocated, non-nil, empty map. -/
def GoMap.make {K V : Type} : GoMap K V := some []

/-- Assignment `m[k] = v` on a Go map variable.  The source never assigns
into a nil map (such an assignment panics in Go), so the `none` case is
never reached by the embedded builders. -/
def GoMap.insert {K V : Type} [DecidableEq K] : GoMap K V → K → V → GoMap K V
  | none, _, _ => none
  | some l, k, v => some (mapInsert l k v)

/-- Read `m[k]` on a Go map variable; the nil map has no entries. -/
def GoMap.lookup {K V : Type} [DecidableEq K] : GoMap K V → K → Option V
  | none, _ => none
  | some l, k => mapLookup l k

/-- The list of keys of a Go map variable. -/
def goKeys {K V : Type} : GoMap K V → List K
  | none => []
  | some l => l.map Prod.fst

/-- Modelled from the spec: the XML-serialization metadata of a component
schema (type `XMLObject` is declared outside build.go); only its name field
is observed by the builders (`s.XML.Name`). -/
structure XMLObject where
  Name : String
deriving DecidableEq

/-- Modelled from the spec: the "properties" mapping of a component schema
is a nested mapping passed through verbatim, opaque to this layer. -/
abbrev SchemaProperties := AList String String

/-- One heterogeneous `interface{}` value stored in the produced document
tree, with one constructor per Go type the builders store. -/
inductive Value where
  | vStr (s : String)
  | vStrList (l : List String)
  | vSecList (l : List (AList String (List String)))
  | vMap (m : List (String × Value))
  | vNatMap (m : List (Nat × Value))
  | vXML (x : XMLObject)
  | vProps (p : SchemaProperties)

/-- A media-type name paired with a schema reference string (`ct.Name`,
`ct.Schema` in makeContentSchemaMap). -/
structure ContentType where
  Name : String
  Schema : String
deriving DecidableEq

/-- A request body: description plus content entries. -/
structure RequestBody where
  Description : String
  Content : List ContentType
deriving DecidableEq

/-- A response: numeric status code, description, content entries. -/
structure Response where
  Code : Nat
  Description : String
  Content : List ContentType
deriving DecidableEq

/-- A security requirement on a route: auth scheme name plus permission
scopes (`sec.AuthName`, `sec.PermTypes` in makeSecurityMap). -/
structure SecurityEntity where
  AuthName : String
  PermTypes : List String
deriving DecidableEq

/-- One registered route, as consumed by makeAllPathsMap: path string,
HTTP method, and the per-method payload.  The field `ReqBody` embeds the
Go field `RequestBody`, renamed because the field name would collide with
the Lean type of the same name. -/
structure Path where
  Route : String
  HTTPMethod : String
  Tags : List String
  Summary : String
  OperationID : String
  Security : List SecurityEntity
  ReqBody : RequestBody
  Responses : List Response

/-- A reusable component schema, as consumed by makeComponentSchemasMap.
The field `Type'` embeds the Go field `Type` (a reserved word in Lean). -/
structure Schema where
  Name : String
  Type' : String
  Properties : SchemaProperties
  Ref : String
  XML : XMLObject

/-- A security scheme, as consumed by makeComponentSecuritySchemesMap.
The field `Type'` embeds the Go field `Type`. -/
structure SecurityScheme where
  Name : String
  Type' : String
  In : String
deriving DecidableEq

/-- One entry of the Components list: a schema collection and a
security-scheme collection. -/
structure Component where
  Schemas : List Schema
  SecuritySchemes : List SecurityScheme

def keyTags : String := "tags"
def keySummary : String := "summary"
def keyOperationID : String := "operationId"
def keySecurity : String := "security"
def keyRequestBody : String := "requestBody"
def keyResponses : String := "responses"
def keyDescription : String := "description"
def keyContent : String := "content"
def keyRef : String := "$ref"
def keySchemas : String := "schemas"
def keySecuritySchemes : String := "securitySchemes"
def keyName : String := "name"
def keyType : String := "type"
def keyProperties : String := "properties"
def keyIn : String := "in"
def keyXML : String := "xml"

/-- makeSecurityMap: one singleton map per security entity, appended in
input order. -/
def makeSecurityMap (se : List SecurityEntity) : List (AList String (List String)) :=
  se.foldl (fun acc sec => acc ++ [mapInsert [] sec.AuthName sec.PermTypes]) []

/-- makeContentSchemaMap: mediatype -> schema -> $ref -> reference string. -/
def makeContentSchemaMap (content : List ContentType) : AList String Value :=
  content.foldl
    (fun m ct =>
      mapInsert m ct.Name
        (Value.vMap (mapInsert [] "schema" (Value.vMap (mapInsert [] keyRef (Value.vStr ct.Schema))))))
    []

/-- makeRequestBodyMap: description plus content map. -/
def makeRequestBodyMap (reqBody : RequestBody) : AList String Value :=
  mapInsert (mapInsert [] keyDescription (Value.vStr reqBody.Description))
    keyContent (Value.vMap (makeContentSchemaMap reqBody.Content))

/-- The per-response body map built inside makeResponsesMap's loop. -/
def codeBodyMap (resp : Response) : AList String Value :=
  mapInsert (mapInsert [] keyDescription (Value.vStr resp.Description))
    keyContent (Value.vMap (makeContentSchemaMap resp.Content))

/-- makeResponsesMap: each response's body map keyed by its status code. -/
def makeResponsesMap (responses : List Response) : AList Nat Value :=
  responses.foldl (fun m resp => mapInsert m resp.Code (Value.vMap (codeBodyMap resp))) []

/-- strings.ToLower, embedded as per-character lowercasing over the
string's character list (structurally recursive so that concrete
instances reduce; HTTP method names are ASCII). -/
def goToLower (s : String) : String := ⟨s.data.map Char.toLower⟩

/-- The per-method map built inside makeAllPathsMap's loop, keys assigned
in source order. -/
def pathMap (path : Path) : AList String Value :=
  mapInsert (mapInsert (mapInsert (mapInsert (mapInsert (mapInsert []
    keyTags (Value.vStrList path.Tags))
    keySummary (Value.vStr path.Summary))
    keyOperationID (Value.vStr path.OperationID))
    keySecurity (Value.vSecList (makeSecurityMap path.Security)))
    keyRequestBody (Value.vMap (makeRequestBodyMap path.ReqBody)))
    keyResponses (Value.vNatMap (makeResponsesMap path.Responses))

/-- makeAllPathsMap: group routes by path string; the `getD` embeds the
nil check `if allPaths[path.Route] == nil` (an absent key reads as the nil
methodsMap, which the source replaces with a fresh empty map before
inserting); the method key is the lowercased HTTP method. -/
def makeAllPathsMap (paths : List Path) : GoMap String (AList String Value) :=
  paths.foldl
    (fun allPaths path =>
      GoMap.insert allPaths path.Route
        (mapInsert ((GoMap.lookup allPaths path.Route).getD [])
          (goToLower path.HTTPMethod) (Value.vMap (pathMap path))))
    GoMap.make

/-- The step of makeAllPathsMap's loop, on the contents of an allocated
paths map (makeAllPathsMap is proved equal to a fold of this step). -/
def pathsStep (allPaths : AList String (AList String Value)) (path : Path) :
    AList String (AList String Value) :=
  mapInsert allPaths path.Route
    (mapInsert ((mapLookup allPaths path.Route).getD [])
      (goToLower path.HTTPMethod) (Value.vMap (pathMap path)))

/-- The per-component-schema map built inside makeComponentSchemasMap's
loop: type, properties, $ref always; xml only when the XML name is
non-empty. -/
def schemaEntry (s : Schema) : AList String Value :=
  let scheme :=
    mapInsert (mapInsert (mapInsert [] keyType (Value.vStr s.Type'))
      keyProperties (Value.vProps s.Properties))
      keyRef (Value.vStr s.Ref)
  if s.XML.Name ≠ "" then mapInsert scheme keyXML (Value.vXML s.XML) else scheme

/-- makeComponentSchemasMap: per-schema maps keyed by schema name. -/
def makeComponentSchemasMap (schemas : List Schema) : AList String Value :=
  schemas.foldl (fun m s => mapInsert m s.Name (Value.vMap (schemaEntry s))) []

/-- The per-security-scheme map built inside
makeComponentSecuritySchemesMap's loop: name and type always; in only when
non-empty. -/
def securitySchemeEntry (ss : SecurityScheme) : AList String Value :=
  let scheme := mapInsert (mapInsert [] keyName (Value.vStr ss.Name)) keyType (Value.vStr ss.Type')
  if ss.In ≠ "" then mapInsert scheme keyIn (Value.vStr ss.In) else scheme

/-- makeComponentSecuritySchemesMap: per-scheme maps keyed by scheme name. -/
def makeComponentSecuritySchemesMap (secSchemes : List SecurityScheme) : AList String Value :=
  secSchemes.foldl (fun m ss => mapInsert m ss.Name (Value.vMap (securitySchemeEntry ss))) []

/-- The body of makeComponentsMap's loop: set the "schemas" and
"securitySchemes" keys from the current Components entry, overwriting
previous iterations. -/
def componentsStep (cm : GoMap String Value) (component : Component) : GoMap String Value :=
  GoMap.insert
    (GoMap.insert cm keySchemas (Value.vMap (makeComponentSchemasMap component.Schemas)))
    keySecuritySchemes (Value.vMap (makeComponentSecuritySchemesMap component.SecuritySchemes))

/-- makeComponentsMap: for each Components entry, set the "schemas" and
"securitySchemes" keys, overwriting previous iterations. -/
def makeComponentsMap (components : List Component) : GoMap String Value :=
  components.foldl componentsStep GoMap.make

/-- Modelled from the spec: the format-version tag, carried through
verbatim by the transform (type declared outside build.go). -/
abbrev OASVersion := String

/-- Modelled from the spec: the metadata block, carried through verbatim. -/
abbrev Info := String

/-- Modelled from the spec: the external-docs block, carried through
verbatim. -/
abbrev ExternalDocs := String

/-- Modelled from the spec: the servers list, carried through verbatim. -/
abbrev Servers := List String

/-- Modelled from the spec: the tags list, carried through verbatim. -/
abbrev Tags := List String

/-- The OAS object graph, with the fields build.go reads (the remaining
fields of the Go struct are not consumed by the builder). -/
structure OAS where
  OASVersion : OASVersion
  Info : Info
  ExternalDocs : ExternalDocs
  Servers : Servers
  Tags : Tags
  Paths : List Path
  Components : List Component

/-- The hybridOAS output document: the seven top-level keys, in source
order. -/
structure hybridOAS where
  OpenAPI : OASVersion
  Info : Info
  ExternalDocs : ExternalDocs
  Servers : Servers
  Tags : Tags
  Paths : GoMap String (AList String Value)
  Components : GoMap String Value

/-- transformToHybridOAS: copy the five metadata fields, then build the
paths and components maps. -/
def transformToHybridOAS (o : OAS) : hybridOAS :=
  { OpenAPI := o.OASVersion
    Info := o.Info
    ExternalDocs := o.ExternalDocs
    Servers := o.Servers
    Tags := o.Tags
    Paths := makeAllPathsMap o.Paths
    Components := makeComponentsMap o.Components }

/-- ConfigBuilder: holds the custom output path. -/
structure ConfigBuilder where
  customPath : String

/-- ConfigBuilder.getPath accessor. -/
def ConfigBuilder.getPath (cb : ConfigBuilder) : String := cb.customPath

/-- The default output path constant. -/
def defaultDocsOutPath : String := "./internal/dist/openapi.yaml"

/-- getPathFromFirstElement: the default path for an empty list, otherwise
the first element's path. -/
def getPathFromFirstElement (cbs : List ConfigBuilder) : String :=
  match cbs with
  | [] => defaultDocsOutPath
  | cb :: _ => cb.getPath

/-- Modelled from the spec: the outcomes of the external collaborators of
the emission driver, none of which are defined in build.go — the
validation pass (initCallStackForRoutes, declared elsewhere in the
repository), the YAML serializer (yaml.Marshal), and the file-system
operations (os.Create, Writer.Write, Writer.Flush).  Each field is the
error (if any) that the collaborator produces when invoked. -/
structure EmitEnv where
  initCallStackErr : Option String
  yamlMarshal : hybridOAS → Except String (List Nat)
  osCreateErr : Option String
  writeErr : Option String
  flushErr : Option String

/-- fmt.Errorf with a %w verb: the stage message, a colon, the wrapped
error. -/
def errorfW (msg inner : String) : String := msg ++ ": " ++ inner

/-- writeAndFlush: write then flush, each wrapped with its own message. -/
def writeAndFlush (env : EmitEnv) : Except String Unit :=
  match env.writeErr with
  | some e => Except.error (errorfW "failed writing to YAML output file" e)
  | none =>
    match env.flushErr with
    | some e => Except.error (errorfW "failed flushing output writer" e)
    | none => Except.ok ()

/-- Whether the output file handle was opened, and whether it was closed,
during one run of createYAMLOutFile. -/
structure FileTrace where
  opened : Bool
  closed : Bool
deriving DecidableEq

/-- createYAMLOutFile: os.Create, deferred Close, then writeAndFlush
wrapped with its stage message.  The deferred Close runs on every exit
path once the handle exists, so `closed` is true whenever `opened` is. -/
def createYAMLOutFile (env : EmitEnv) : Except String Unit × FileTrace :=
  match env.osCreateErr with
  | some e => (Except.error (errorfW "failed creating yaml output file" e), ⟨false, false⟩)
  | none =>
    match writeAndFlush env with
    | Except.error e => (Except.error (errorfW "writing issue occurred" e), ⟨true, true⟩)
    | Except.ok _ => (Except.ok (), ⟨true, true⟩)

/-- marshalToYAML: transform, then hand the tree to the serializer,
wrapping a serializer error with its stage message. -/
def marshalToYAML (env : EmitEnv) (o : OAS) : Except String (List Nat) :=
  match env.yamlMarshal (transformToHybridOAS o) with
  | Except.error e => Except.error (errorfW "failed marshaling to yaml" e)
  | Except.ok yml => Except.ok yml

/-- The observable outcome of one BuildDocs run: the returned error value,
the file-handle trace, and the output path handed to os.Create (none when
an earlier stage failed before the file stage). -/
structure BuildOutcome where
  result : Except String Unit
  trace : FileTrace
  pathUsed : Option String

/-- BuildDocs: validation, marshaling, then output writing, each failure
wrapped with its stage-identifying message and returned at once. -/
def BuildDocs (env : EmitEnv) (o : OAS) (conf : List ConfigBuilder) : BuildOutcome :=
  match env.initCallStackErr with
  | some e =>
    ⟨Except.error (errorfW "failed initiating call stack for registered routes" e),
      ⟨false, false⟩, none⟩
  | none =>
    match marshalToYAML env o with
    | Except.error e => ⟨Except.error (errorfW "marshaling issue occurred" e), ⟨false, false⟩, none⟩
    | Except.ok _ =>
      let path := getPathFromFirstElement conf
      match createYAMLOutFile env with
      | (Except.error e, tr) =>
        ⟨Except.error (errorfW "an issue occurred while saving to YAML output" e), tr, some path⟩
      | (Except.ok _, tr) => ⟨Except.ok (), tr, some path⟩

/-- A sample GET route on /users, used to instantiate proved theorems at
concrete input. -/
def samplePath1 : Path :=
  { Route := "/users", HTTPMethod := "GET", Tags := ["users"], Summary := "list users"
    OperationID := "listUsers", Security := []
    ReqBody := { Description := "", Content := [] }
    Responses := [{ Code := 200, Description := "ok"
                    Content := [{ Name := "application/json"
                                  Schema := "#/components/schemas/User" }] }] }

/-- A sample POST route on the same path as samplePath1 but a different
method. -/
def samplePath2 : Path :=
  { Route := "/users", HTTPMethod := "POST", Tags := ["users"], Summary := "create user"
    OperationID := "createUser", Security := []
    ReqBody := { Description := "body", Content := [] }
    Responses := [] }

/-- Two routes sharing a path with distinct methods. -/
def samplePaths : List Path := [samplePath1, samplePath2]

/-- An OAS graph with no routes and no components. -/
def sampleOAS : OAS :=
  { OASVersion := "3.0.1", Info := "info", ExternalDocs := "docs", Servers := [], Tags := []
    Paths := [], Components := [] }

/-- An environment in which every external collaborator succeeds. -/
def sampleEnv : EmitEnv :=
  { initCallStackErr := none, yamlMarshal := fun _ => Except.ok []
    osCreateErr := none, writeErr := none, flushErr := none }

/-- An environment in which the validation pass fails. -/
def sampleEnvErr : EmitEnv :=
  { initCallStackErr := some "boom", yamlMarshal := fun _ => Except.ok []
    osCreateErr := none, writeErr := none, flushErr := none }

/-- Looking a key up after an insert: the inserted value at the inserted
key, the previous contents elsewhere. -/
theorem mapLookup_mapInsert {K V : Type} [DecidableEq K] (l : AList K V) (k k2 : K) (v : V) :
    mapLookup (mapInsert l k v) k2 = if k2 = k then some v else mapLookup l k2 := by
  induction l with
  | nil => simp [mapInsert, mapLookup]
  | cons hd tl ih =>
    obtain ⟨k', v'⟩ := hd
    by_cases h1 : k = k'
    · subst h1
      simp only [mapInsert, if_pos rfl, mapLookup]
      split_ifs <;> simp_all
    · simp only [mapInsert, if_neg h1, mapLookup, ih]
      split_ifs <;> simp_all

/-- The keys after an insert: unchanged when the key was present, the key
appended otherwise. -/
theorem keys_mapInsert {K V : Type} [DecidableEq K] (l : AList K V) (k : K) (v : V) :
    (mapInsert l k v).map Prod.fst =
      if k ∈ l.map Prod.fst then l.map Prod.fst else l.map Prod.fst ++ [k] := by
  induction l with
  | nil => simp [mapInsert]
  | cons hd tl ih =>
    obtain ⟨k', v'⟩ := hd
    by_cases h1 : k = k'
    · subst h1
      simp [mapInsert]
    · simp only [mapInsert, if_neg h1, List.map_cons, ih]
      by_cases h2 : k ∈ tl.map Prod.fst <;> simp [h1, h2, List.mem_cons]

/-- The inserted key is among the keys after an insert. -/
theorem mem_keys_mapInsert {K V : Type} [DecidableEq K] (l : AList K V) (k : K) (v : V) :
    k ∈ (mapInsert l k v).map Prod.fst := by
  rw [keys_mapInsert]
  split_ifs with hm
  · exact hm
  · simp

/-- Keys survive an insert. -/
theorem mem_keys_mapInsert_of_mem {K V : Type} [DecidableEq K] {l : AList K V} {m : K}
    (k : K) (v : V) (h : m ∈ l.map Prod.fst) : m ∈ (mapInsert l k v).map Prod.fst := by
  rw [keys_mapInsert]
  split_ifs with hm
  · exact h
  · exact List.mem_append_left _ h

/-- A key found after an insert was present before, or is the inserted
key. -/
theorem mem_keys_mapInsert_elim {K V : Type} [DecidableEq K] {l : AList K V} {m k : K} {v : V}
    (h : m ∈ (mapInsert l k v).map Prod.fst) : m ∈ l.map Prod.fst ∨ m = k := by
  rw [keys_mapInsert] at h
  split_ifs at h with hm
  · exact Or.inl h
  · rcases List.mem_append.mp h with h' | h'
    · exact Or.inl h'
    · exact Or.inr (by simpa using h')

/-- Inserting preserves distinctness of the keys. -/
theorem nodup_keys_mapInsert {K V : Type} [DecidableEq K] {l : AList K V} (k : K) (v : V)
    (h : (l.map Prod.fst).Nodup) : ((mapInsert l k v).map Prod.fst).Nodup := by
  rw [keys_mapInsert]
  split_ifs with hm
  · exact h
  · simp_all [List.nodup_append]

/-- The key set after an insert. -/
theorem toFinset_keys_mapInsert {K V : Type} [DecidableEq K] (l : AList K V) (k : K) (v : V) :
    ((mapInsert l k v).map Prod.fst).toFinset = insert k (l.map Prod.fst).toFinset := by
  rw [keys_mapInsert]
  split_ifs with hm
  · exact (Finset.insert_eq_self.mpr (List.mem_toFinset.mpr hm)).symm
  · rw [List.toFinset_append]
    simp [Finset.union_comm, Finset.insert_eq]

/-- Lookup in a map built by folding keyed inserts: the value of the last
input element whose key matches, the initial contents when none does. -/
theorem mapLookup_foldl_mapInsert {K V α : Type} [DecidableEq K] (f : α → K) (g : α → V)
    (l : List α) (m0 : AList K V) (k : K) :
    mapLookup (l.foldl (fun m r => mapInsert m (f r) (g r)) m0) k =
      Option.elim ((l.filter (fun r => decide (f r = k))).getLast?)
        (mapLookup m0 k) (fun r => some (g r)) := by
  induction l generalizing m0 with
  | nil => simp
  | cons a tl ih =>
    rw [List.foldl_cons, ih]
    by_cases ha : f a = k
    · rw [List.filter_cons_of_pos (by simp [ha])]
      cases hft : tl.filter (fun r => decide (f r = k)) with
      | nil =>
        simp only [hft, List.getLast?_nil, List.getLast?_singleton, Option.elim]
        rw [mapLookup_mapInsert, if_pos ha.symm]
      | cons b bs =>
        simp [List.getLast?_cons]
    · rw [List.filter_cons_of_neg (by simp [ha])]
      cases hft : (tl.filter (fun r => decide (f r = k))).getLast? with
      | none =>
        simp only [hft, Option.elim]
        rw [mapLookup_mapInsert, if_neg (fun h => ha h.symm)]
      | some r => simp [hft]

/-- The key set of a map built by folding keyed inserts, for any step that
inserts at key `f r` (the value may depend on the accumulator). -/
theorem toFinset_keys_foldl_mapInsert {K V α : Type} [DecidableEq K] (f : α → K)
    (vf : AList K V → α → V) (l : List α) (m0 : AList K V) :
    ((l.foldl (fun m r => mapInsert m (f r) (vf m r)) m0).map Prod.fst).toFinset =
      (m0.map Prod.fst).toFinset ∪ (l.map f).toFinset := by
  induction l generalizing m0 with
  | nil => simp
  | cons a tl ih =>
    rw [List.foldl_cons, ih, toFinset_keys_mapInsert]
    rw [List.map_cons, List.toFinset_cons, Finset.insert_union, Finset.union_insert]

/-- Folding keyed inserts preserves distinctness of the keys. -/
theorem nodup_keys_foldl_mapInsert {K V α : Type} [DecidableEq K] (f : α → K)
    (vf : AList K V → α → V) (l : List α) (m0 : AList K V)
    (h : (m0.map Prod.fst).Nodup) :
    ((l.foldl (fun m r => mapInsert m (f r) (vf m r)) m0).map Prod.fst).Nodup := by
  induction l generalizing m0 with
  | nil => exact h
  | cons a tl ih =>
    rw [List.foldl_cons]
    exact ih _ (nodup_keys_mapInsert _ _ h)

/-- makeAllPathsMap always returns an allocated (non-nil) map, namely the
fold of `pathsStep` over the routes. -/
theorem makeAllPathsMap_eq_foldl (ps : List Path) :
    makeAllPathsMap ps = some (ps.foldl pathsStep []) := by
  suffices h : ∀ l0 : AList String (AList String Value),
      ps.foldl
        (fun allPaths path =>
          GoMap.insert allPaths path.Route
            (mapInsert ((GoMap.lookup allPaths path.Route).getD [])
              (goToLower path.HTTPMethod) (Value.vMap (pathMap path)))) (some l0)
      = some (ps.foldl pathsStep l0) from h []
  induction ps with
  | nil => intro l0; rfl
  | cons a tl ih =>
    intro l0
    rw [List.foldl_cons, List.foldl_cons]
    exact ih (pathsStep l0 a)

/-- Lookup after one step of the paths fold: at the stepped route, the
inner map grown (from empty when absent) by the lowercased method key;
elsewhere unchanged. -/
theorem mapLookup_pathsStep (l : AList String (AList String Value)) (q : Path)
    (route : String) :
    mapLookup (pathsStep l q) route =
      if route = q.Route
      then some (mapInsert ((mapLookup l q.Route).getD [])
        (goToLower q.HTTPMethod) (Value.vMap (pathMap q)))
      else mapLookup l route := by
  unfold pathsStep
  rw [mapLookup_mapInsert]

/-- Once a path key holds an inner map, the rest of the fold keeps the key
and only grows the inner map's method keys. -/
theorem pathsFold_mono (ps : List Path) (l0 : AList String (AList String Value))
    (route : String) (inner : AList String Value)
    (h : mapLookup l0 route = some inner) :
    ∃ inner2, mapLookup (ps.foldl pathsStep l0) route = some inner2 ∧
      ∀ m ∈ inner.map Prod.fst, m ∈ inner2.map Prod.fst := by
  induction ps generalizing l0 inner with
  | nil => exact ⟨inner, h, fun m hm => hm⟩
  | cons a tl ih =>
    rw [List.foldl_cons]
    by_cases hr : route = a.Route
    · have hcur : (mapLookup l0 a.Route).getD [] = inner := by rw [← hr, h]; rfl
      have hnew : mapLookup (pathsStep l0 a) route =
          some (mapInsert inner (goToLower a.HTTPMethod) (Value.vMap (pathMap a))) := by
        rw [mapLookup_pathsStep, if_pos hr, hcur]
      obtain ⟨inner2, h2, hsub⟩ := ih _ _ hnew
      exact ⟨inner2, h2, fun m hm => hsub m (mem_keys_mapInsert_of_mem _ _ hm)⟩
    · have hkeep : mapLookup (pathsStep l0 a) route = some inner := by
        rw [mapLookup_pathsStep, if_neg hr]
        exact h
      exact ih _ _ hkeep

/-- Each route's path key is present and its lowercased method is a key of
the inner map there. -/
theorem pathsFold_mem_method (ps : List Path) (l0 : AList String (AList String Value)) :
    ∀ p ∈ ps, ∃ inner, mapLookup (ps.foldl pathsStep l0) p.Route = some inner ∧
      (goToLower p.HTTPMethod) ∈ inner.map Prod.fst := by
  induction ps generalizing l0 with
  | nil => intro p hp; cases hp
  | cons a tl ih =>
    intro p hp
    rw [List.foldl_cons]
    rcases List.mem_cons.mp hp with hpa | hptl
    · subst hpa
      have hstep : mapLookup (pathsStep l0 p) p.Route =
          some (mapInsert ((mapLookup l0 p.Route).getD [])
            (goToLower p.HTTPMethod) (Value.vMap (pathMap p))) := by
        rw [mapLookup_pathsStep, if_pos rfl]
      obtain ⟨inner2, h2, hsub⟩ := pathsFold_mono tl _ _ _ hstep
      exact ⟨inner2, h2, hsub _ (mem_keys_mapInsert _ _ _)⟩
    · exact ih _ p hptl

/-- Every method key in the built paths map is the lowercased method of
some input route registered at that path. -/
theorem pathsFold_keys_from_input (ps : List Path) :
    ∀ route inner, mapLookup (ps.foldl pathsStep []) route = some inner →
      ∀ m ∈ inner.map Prod.fst,
        ∃ p, p ∈ ps ∧ p.Route = route ∧ m = (goToLower p.HTTPMethod) := by
  induction ps using List.reverseRecOn with
  | nil => intro route inner h; simp [mapLookup] at h
  | append_singleton l q ih =>
    intro route inner h m hm
    rw [List.foldl_append, List.foldl_cons, List.foldl_nil] at h
    rw [mapLookup_pathsStep] at h
    by_cases hr : route = q.Route
    · rw [if_pos hr] at h
      obtain rfl :
          mapInsert ((mapLookup (l.foldl pathsStep []) q.Route).getD [])
            (goToLower q.HTTPMethod) (Value.vMap (pathMap q)) = inner := by
        exact Option.some.inj h
      rcases mem_keys_mapInsert_elim hm with hcur | hlq
      · cases hM : mapLookup (l.foldl pathsStep []) q.Route with
        | none => rw [hM] at hcur; simp at hcur
        | some i0 =>
          rw [hM] at hcur
          obtain ⟨p, hpl, hproute, hpm⟩ := ih q.Route i0 hM m (by simpa using hcur)
          exact ⟨p, List.mem_append_left _ hpl, hr ▸ hproute, hpm⟩
      · exact ⟨q, List.mem_append_right _ (by simp), hr.symm, hlq⟩
    · rw [if_neg hr] at h
      obtain ⟨p, hpl, hproute, hpm⟩ := ih route inner h m hm
      exact ⟨p, List.mem_append_left _ hpl, hproute, hpm⟩

/-- When no two routes share both path and lowercased method, every
route's own per-method map is found at its path and method keys. -/
theorem pathsFold_lookup_exact (ps : List Path)
    (h : (ps.map (fun p => (p.Route, (goToLower p.HTTPMethod)))).Nodup) :
    ∀ p ∈ ps, ∃ inner, mapLookup (ps.foldl pathsStep []) p.Route = some inner ∧
      mapLookup inner (goToLower p.HTTPMethod) = some (Value.vMap (pathMap p)) := by
  induction ps using List.reverseRecOn with
  | nil => intro p hp; cases hp
  | append_singleton l q ih =>
    intro p hp
    rw [List.foldl_append, List.foldl_cons, List.foldl_nil]
    have hsplit := h
    rw [List.map_append, List.nodup_append] at hsplit
    obtain ⟨hnl, _, hdisj⟩ := hsplit
    rcases List.mem_append.mp hp with hpl | hpq
    · obtain ⟨inner, hli, hme⟩ := ih hnl p hpl
      by_cases hroute : p.Route = q.Route
      · have hlplq : (goToLower p.HTTPMethod) ≠ (goToLower q.HTTPMethod) := by
          intro hmeq
          have hpair : (p.Route, (goToLower p.HTTPMethod)) ∈
              l.map (fun p => (p.Route, (goToLower p.HTTPMethod))) :=
            List.mem_map_of_mem _ hpl
          have : (p.Route, (goToLower p.HTTPMethod)) ∈
              [q].map (fun p => (p.Route, (goToLower p.HTTPMethod))) := by
            simp [hroute, hmeq]
          exact hdisj hpair this
        have hcur : (mapLookup (l.foldl pathsStep []) q.Route).getD [] = inner := by
          rw [← hroute, hli]; rfl
        refine ⟨mapInsert inner (goToLower q.HTTPMethod) (Value.vMap (pathMap q)), ?_, ?_⟩
        · rw [mapLookup_pathsStep, if_pos hroute, hcur]
        · rw [mapLookup_mapInsert, if_neg hlplq]
          exact hme
      · refine ⟨inner, ?_, hme⟩
        rw [mapLookup_pathsStep, if_neg hroute]
        exact hli
    · obtain rfl : p = q := by simpa using hpq
      refine ⟨mapInsert ((mapLookup (l.foldl pathsStep []) p.Route).getD [])
        (goToLower p.HTTPMethod) (Value.vMap (pathMap p)), ?_, ?_⟩
      · rw [mapLookup_pathsStep, if_pos rfl]
      · rw [mapLookup_mapInsert, if_pos rfl]

/-- One components-loop step on a map of the reachable shapes always
yields exactly the two sub-maps of the current entry. -/
theorem componentsStep_canonical (m : GoMap String Value) (c : Component)
    (h : m = some [] ∨ ∃ a b, m = some [(keySchemas, a), (keySecuritySchemes, b)]) :
    componentsStep m c =
      some [(keySchemas, Value.vMap (makeComponentSchemasMap c.Schemas)),
            (keySecuritySchemes, Value.vMap (makeComponentSecuritySchemesMap c.SecuritySchemes))] := by
  have hne : keySecuritySchemes ≠ keySchemas := by decide
  rcases h with h | ⟨a, b, h⟩ <;> subst h <;>
    simp [componentsStep, GoMap.insert, mapInsert, hne]

/-- The components fold only reaches the empty map or a map holding
exactly the "schemas" and "securitySchemes" keys. -/
theorem componentsFold_shape (cs : List Component) :
    makeComponentsMap cs = some [] ∨
    ∃ a b, makeComponentsMap cs = some [(keySchemas, a), (keySecuritySchemes, b)] := by
  induction cs using List.reverseRecOn with
  | nil => exact Or.inl rfl
  | append_singleton l q ih =>
    right
    have : makeComponentsMap (l ++ [q]) = componentsStep (makeComponentsMap l) q := by
      unfold makeComponentsMap
      rw [List.foldl_append, List.foldl_cons, List.foldl_nil]
    rw [this, componentsStep_canonical _ q ih]
    exact ⟨_, _, rfl⟩

/-- Claim C1: when the Components list has two or more entries (any list
with a last entry), the built components map equals the one built from the
last entry alone, whose "schemas" and "securitySchemes" sub-maps are
exactly the last entry's — last-wins overwrite, no trace of earlier
entries. -/
theorem claim1_components_last_wins (cs : List Component) (c : Component) :
    makeComponentsMap (cs ++ [c]) = makeComponentsMap [c] ∧
    makeComponentsMap [c] =
      some [(keySchemas, Value.vMap (makeComponentSchemasMap c.Schemas)),
            (keySecuritySchemes, Value.vMap (makeComponentSecuritySchemesMap c.SecuritySchemes))] := by
  have hstep : makeComponentsMap (cs ++ [c]) = componentsStep (makeComponentsMap cs) c := by
    unfold makeComponentsMap
    rw [List.foldl_append, List.foldl_cons, List.foldl_nil]
  have hlast : makeComponentsMap [c] =
      some [(keySchemas, Value.vMap (makeComponentSchemasMap c.Schemas)),
            (keySecuritySchemes, Value.vMap (makeComponentSecuritySchemesMap c.SecuritySchemes))] := by
    have : makeComponentsMap [c] = componentsStep GoMap.make c := rfl
    rw [this, componentsStep_canonical GoMap.make c (Or.inl rfl)]
  refine ⟨?_, hlast⟩
  rw [hstep, componentsStep_canonical _ c (componentsFold_shape cs), hlast]

/-- The key set of the built paths map is the set of input path strings. -/
theorem pathsFold_toFinset (ps : List Path) :
    ((ps.foldl pathsStep []).map Prod.fst).toFinset = (ps.map Path.Route).toFinset := by
  have h := toFinset_keys_foldl_mapInsert (fun p : Path => p.Route)
    (fun m p => mapInsert ((mapLookup m p.Route).getD [])
      (goToLower p.HTTPMethod) (Value.vMap (pathMap p))) ps []
  simpa using h

/-- The built paths map's keys are distinct. -/
theorem pathsFold_nodup (ps : List Path) :
    ((ps.foldl pathsStep []).map Prod.fst).Nodup := by
  have h := nodup_keys_foldl_mapInsert (fun p : Path => p.Route)
    (fun m p => mapInsert ((mapLookup m p.Route).getD [])
      (goToLower p.HTTPMethod) (Value.vMap (pathMap p))) ps [] (by simp)
  exact h

/-- Claim C2: for every Route list the assembled paths map has exactly one
key per distinct input path string (distinct keys whose set is the set of
input routes), and — under the data-model invariant that no two Routes
share both path and (lowercased) method — any two Routes sharing a path
but differing in method are both found under that single path key, each
with its own per-method map (tags, summary, operationId, security,
requestBody, responses). -/
theorem claim2_paths_grouping (ps : List Path) :
    ((goKeys (makeAllPathsMap ps)).Nodup ∧
      (goKeys (makeAllPathsMap ps)).toFinset = (ps.map Path.Route).toFinset) ∧
    ((ps.map (fun p => (p.Route, (goToLower p.HTTPMethod)))).Nodup →
      ∀ p ∈ ps, ∃ inner, GoMap.lookup (makeAllPathsMap ps) p.Route = some inner ∧
        mapLookup inner (goToLower p.HTTPMethod) = some (Value.vMap (pathMap p))) := by
  constructor
  · rw [makeAllPathsMap_eq_foldl]
    exact ⟨by simpa [goKeys] using pathsFold_nodup ps,
      by simpa [goKeys] using pathsFold_toFinset ps⟩
  · intro h p hp
    obtain ⟨inner, h1, h2⟩ := pathsFold_lookup_exact ps h p hp
    refine ⟨inner, ?_, h2⟩
    rw [makeAllPathsMap_eq_foldl]
    exact h1

/-- Witness for claim C2 at two concrete routes sharing /users with
methods GET and POST. -/
theorem claim2_paths_grouping_witness :
    (samplePaths.map (fun p => (p.Route, (goToLower p.HTTPMethod)))).Nodup ∧
    (∀ p ∈ samplePaths, ∃ inner,
      GoMap.lookup (makeAllPathsMap samplePaths) p.Route = some inner ∧
        mapLookup inner (goToLower p.HTTPMethod) = some (Value.vMap (pathMap p))) :=
  ⟨by decide, (claim2_paths_grouping samplePaths).2 (by decide)⟩

/-- Claim C3: every route's per-method map is inserted under the
lowercased form of its HTTP method at its path key, and conversely every
method key in the output is the lowercased method of some input route at
that path. -/
theorem claim3_method_lowercase (ps : List Path) :
    (∀ p ∈ ps, ∃ inner, GoMap.lookup (makeAllPathsMap ps) p.Route = some inner ∧
      (goToLower p.HTTPMethod) ∈ inner.map Prod.fst) ∧
    (∀ route inner, GoMap.lookup (makeAllPathsMap ps) route = some inner →
      ∀ m ∈ inner.map Prod.fst,
        ∃ p, p ∈ ps ∧ p.Route = route ∧ m = (goToLower p.HTTPMethod)) := by
  constructor
  · intro p hp
    obtain ⟨inner, h1, h2⟩ := pathsFold_mem_method ps [] p hp
    refine ⟨inner, ?_, h2⟩
    rw [makeAllPathsMap_eq_foldl]
    exact h1
  · intro route inner h m hm
    rw [makeAllPathsMap_eq_foldl] at h
    exact pathsFold_keys_from_input ps route inner h m hm

/-- Witness for claim C3: the GET route on /users is found under the
lowercase method key "get". -/
theorem claim3_method_lowercase_witness :
    ∃ inner, GoMap.lookup (makeAllPathsMap samplePaths) samplePath1.Route = some inner ∧
      (goToLower samplePath1.HTTPMethod) ∈ inner.map Prod.fst :=
  (claim3_method_lowercase samplePaths).1 samplePath1 (List.mem_cons_self _ _)

/-- Claim C4: makeResponsesMap keys each response's body map by its
numeric status code, and when several responses share a code the last one
in the list silently wins; the builder is total, so no error is ever
raised. -/
theorem claim4_responses_last_wins (rs : List Response) (c : Nat) :
    mapLookup (makeResponsesMap rs) c =
      Option.map (fun r => Value.vMap (codeBodyMap r))
        ((rs.filter (fun r => decide (r.Code = c))).getLast?) := by
  have h := mapLookup_foldl_mapInsert (fun r : Response => r.Code)
    (fun r => Value.vMap (codeBodyMap r)) rs [] c
  cases hl : (rs.filter (fun r => decide (r.Code = c))).getLast? with
  | none =>
    rw [hl] at h
    simpa [mapLookup] using h
  | some r =>
    rw [hl] at h
    simpa using h

/-- Claim C5: in the built per-schema map the "xml" key is present exactly
when the schema's XML name is non-empty, and then carries the input XML
substructure unchanged; the aggregate map is keyed by schema name with the
last schema of a given name winning. -/
theorem claim5_schema_xml_key (schemas : List Schema) (name : String) (s : Schema) :
    (mapLookup (makeComponentSchemasMap schemas) name =
      Option.map (fun s => Value.vMap (schemaEntry s))
        ((schemas.filter (fun s => decide (s.Name = name))).getLast?)) ∧
    (mapLookup (schemaEntry s) keyXML =
      if s.XML.Name = "" then none else some (Value.vXML s.XML)) := by
  constructor
  · have h := mapLookup_foldl_mapInsert (fun s : Schema => s.Name)
      (fun s => Value.vMap (schemaEntry s)) schemas [] name
    cases hl : (schemas.filter (fun s => decide (s.Name = name))).getLast? with
    | none =>
      rw [hl] at h
      simpa [mapLookup] using h
    | some r =>
      rw [hl] at h
      simpa using h
  · unfold schemaEntry
    by_cases hx : s.XML.Name = ""
    · rw [if_pos hx, if_neg (by simpa using hx)]
      rw [mapLookup_mapInsert, if_neg (by decide), mapLookup_mapInsert, if_neg (by decide),
        mapLookup_mapInsert, if_neg (by decide)]
      rfl
    · rw [if_neg hx, if_pos (by simpa using hx)]
      rw [mapLookup_mapInsert, if_pos rfl]

/-- Claim C6: in the built per-security-scheme map the "name" and "type"
keys are always present, and the "in" key is present exactly when the
scheme's location field is non-empty, carrying it verbatim; the aggregate
map is keyed by scheme name with the last scheme of a given name
winning. -/
theorem claim6_securityscheme_in_key (sss : List SecurityScheme) (name : String)
    (ss : SecurityScheme) :
    (mapLookup (makeComponentSecuritySchemesMap sss) name =
      Option.map (fun ss => Value.vMap (securitySchemeEntry ss))
        ((sss.filter (fun ss => decide (ss.Name = name))).getLast?)) ∧
    (mapLookup (securitySchemeEntry ss) keyName = some (Value.vStr ss.Name)) ∧
    (mapLookup (securitySchemeEntry ss) keyType = some (Value.vStr ss.Type')) ∧
    (mapLookup (securitySchemeEntry ss) keyIn =
      if ss.In = "" then none else some (Value.vStr ss.In)) := by
  refine ⟨?_, ?_, ?_, ?_⟩
  · have h := mapLookup_foldl_mapInsert (fun ss : SecurityScheme => ss.Name)
      (fun ss => Value.vMap (securitySchemeEntry ss)) sss [] name
    cases hl : (sss.filter (fun ss => decide (ss.Name = name))).getLast? with
    | none =>
      rw [hl] at h
      simpa [mapLookup] using h
    | some r =>
      rw [hl] at h
      simpa using h
  · unfold securitySchemeEntry
    by_cases hi : ss.In = ""
    · rw [if_neg (by simpa using hi)]
      rw [mapLookup_mapInsert, if_neg (by decide), mapLookup_mapInsert, if_pos rfl]
    · rw [if_pos (by simpa using hi)]
      rw [mapLookup_mapInsert, if_neg (by decide), mapLookup_mapInsert, if_neg (by decide),
        mapLookup_mapInsert, if_pos rfl]
  · unfold securitySchemeEntry
    by_cases hi : ss.In = ""
    · rw [if_neg (by simpa using hi)]
      rw [mapLookup_mapInsert, if_pos rfl]
    · rw [if_pos (by simpa using hi)]
      rw [mapLookup_mapInsert, if_neg (by decide), mapLookup_mapInsert, if_pos rfl]
  · unfold securitySchemeEntry
    by_cases hi : ss.In = ""
    · rw [if_pos hi, if_neg (by simpa using hi)]
      rw [mapLookup_mapInsert, if_neg (by decide), mapLookup_mapInsert, if_neg (by decide)]
      rfl
    · rw [if_neg hi, if_pos (by simpa using hi)]
      rw [mapLookup_mapInsert, if_pos rfl]

/-- Claim C7: for an empty Route list and an empty Components list the
transformed document still carries all seven top-level fields — the five
metadata fields verbatim, and paths and components as allocated empty
maps (`some []`), not nil. -/
theorem claim7_empty_transform (o : OAS) (hp : o.Paths = []) (hc : o.Components = []) :
    (transformToHybridOAS o).OpenAPI = o.OASVersion ∧
    (transformToHybridOAS o).Info = o.Info ∧
    (transformToHybridOAS o).ExternalDocs = o.ExternalDocs ∧
    (transformToHybridOAS o).Servers = o.Servers ∧
    (transformToHybridOAS o).Tags = o.Tags ∧
    (transformToHybridOAS o).Paths = some [] ∧
    (transformToHybridOAS o).Components = some [] := by
  refine ⟨rfl, rfl, rfl, rfl, rfl, ?_, ?_⟩
  · show makeAllPathsMap o.Paths = some []
    rw [hp]
    rfl
  · show makeComponentsMap o.Components = some []
    rw [hc]
    rfl

/-- Witness for claim C7 at a concrete empty OAS graph. -/
theorem claim7_empty_transform_witness :
    (transformToHybridOAS sampleOAS).OpenAPI = sampleOAS.OASVersion ∧
    (transformToHybridOAS sampleOAS).Info = sampleOAS.Info ∧
    (transformToHybridOAS sampleOAS).ExternalDocs = sampleOAS.ExternalDocs ∧
    (transformToHybridOAS sampleOAS).Servers = sampleOAS.Servers ∧
    (transformToHybridOAS sampleOAS).Tags = sampleOAS.Tags ∧
    (transformToHybridOAS sampleOAS).Paths = some [] ∧
    (transformToHybridOAS sampleOAS).Components = some [] :=
  claim7_empty_transform sampleOAS rfl rfl

/-- Claim C8: BuildDocs succeeds exactly when validation, serialization,
file creation, writing and flushing all succeed; each failing stage's
error is returned wrapped with that stage's message; and the output file
handle, once opened, is closed on every exit path. -/
theorem claim8_builddocs_stages (env : EmitEnv) (o : OAS) (conf : List ConfigBuilder) :
    ((BuildDocs env o conf).result = Except.ok () ↔
      (env.initCallStackErr = none ∧
        (∃ yml, env.yamlMarshal (transformToHybridOAS o) = Except.ok yml) ∧
        env.osCreateErr = none ∧ env.writeErr = none ∧ env.flushErr = none)) ∧
    ((BuildDocs env o conf).trace.opened = true → (BuildDocs env o conf).trace.closed = true) ∧
    (∀ e, env.initCallStackErr = some e →
      (BuildDocs env o conf).result =
        Except.error (errorfW "failed initiating call stack for registered routes" e)) ∧
    (∀ e, env.initCallStackErr = none →
      env.yamlMarshal (transformToHybridOAS o) = Except.error e →
      (BuildDocs env o conf).result =
        Except.error (errorfW "marshaling issue occurred" (errorfW "failed marshaling to yaml" e))) ∧
    (∀ e, env.initCallStackErr = none →
      (∃ yml, env.yamlMarshal (transformToHybridOAS o) = Except.ok yml) →
      env.osCreateErr = some e →
      (BuildDocs env o conf).result =
        Except.error (errorfW "an issue occurred while saving to YAML output"
          (errorfW "failed creating yaml output file" e))) ∧
    (∀ e, env.initCallStackErr = none →
      (∃ yml, env.yamlMarshal (transformToHybridOAS o) = Except.ok yml) →
      env.osCreateErr = none → env.writeErr = some e →
      (BuildDocs env o conf).result =
        Except.error (errorfW "an issue occurred while saving to YAML output"
          (errorfW "writing issue occurred" (errorfW "failed writing to YAML output file" e)))) ∧
    (∀ e, env.initCallStackErr = none →
      (∃ yml, env.yamlMarshal (transformToHybridOAS o) = Except.ok yml) →
      env.osCreateErr = none → env.writeErr = none → env.flushErr = some e →
      (BuildDocs env o conf).result =
        Except.error (errorfW "an issue occurred while saving to YAML output"
          (errorfW "writing issue occurred" (errorfW "failed flushing output writer" e)))) := by
  cases hv : env.initCallStackErr with
  | some e => simp [BuildDocs, hv]
  | none =>
    cases hm : env.yamlMarshal (transformToHybridOAS o) with
    | error e =>
      simp [BuildDocs, marshalToYAML, hv, hm, createYAMLOutFile, writeAndFlush]
    | ok yml =>
      cases hc : env.osCreateErr with
      | some e =>
        simp [BuildDocs, marshalToYAML, hv, hm, hc, createYAMLOutFile, writeAndFlush]
      | none =>
        cases hw : env.writeErr with
        | some e =>
          simp [BuildDocs, marshalToYAML, hv, hm, hc, hw, createYAMLOutFile, writeAndFlush]
        | none =>
          cases hf : env.flushErr with
          | some e =>
            simp [BuildDocs, marshalToYAML, hv, hm, hc, hw, hf, createYAMLOutFile, writeAndFlush]
          | none =>
            simp [BuildDocs, marshalToYAML, hv, hm, hc, hw, hf, createYAMLOutFile, writeAndFlush]

/-- Witness for claim C8: with every collaborator succeeding BuildDocs
returns ok, and with a failing validation pass it returns the wrapped
validation error. -/
theorem claim8_builddocs_stages_witness :
    (BuildDocs sampleEnv sampleOAS []).result = Except.ok () ∧
    (BuildDocs sampleEnvErr sampleOAS []).result =
      Except.error (errorfW "failed initiating call stack for registered routes" "boom") :=
  ⟨((claim8_builddocs_stages sampleEnv sampleOAS []).1).mpr
      ⟨rfl, ⟨[], rfl⟩, rfl, rfl, rfl⟩,
    (claim8_builddocs_stages sampleEnvErr sampleOAS []).2.2.1 "boom" rfl⟩

/-- Claim C10: the output path is the default exactly for an empty
configuration list, and for a non-empty list it is the first element's
custom path (even when empty), later elements being ignored; whenever
BuildDocs reaches the file stage it uses exactly that path. -/
theorem claim10_config_path :
    getPathFromFirstElement [] = defaultDocsOutPath ∧
    (∀ (cb : ConfigBuilder) (rest : List ConfigBuilder),
      getPathFromFirstElement (cb :: rest) = cb.customPath) ∧
    (∀ (env : EmitEnv) (o : OAS) (conf : List ConfigBuilder),
      (BuildDocs env o conf).pathUsed = some (getPathFromFirstElement conf) ∨
      (BuildDocs env o conf).pathUsed = none) := by
  refine ⟨rfl, fun cb rest => rfl, ?_⟩
  intro env o conf
  cases hv : env.initCallStackErr with
  | some e => simp [BuildDocs, hv]
  | none =>
    cases hm : env.yamlMarshal (transformToHybridOAS o) with
    | error e => simp [BuildDocs, marshalToYAML, hv, hm]
    | ok yml =>
      rcases hcr : createYAMLOutFile env with ⟨res, tr⟩
      cases res with
      | error e => simp [BuildDocs, marshalToYAML, hv, hm, hcr]
      | ok u => simp [BuildDocs, marshalToYAML, hv, hm, hcr]

end OasDocs
